import Mathlib

/-!
# Verification of the Masterblog API backend (`src/backend/backend_app.py`)

Shallow embedding of the in-memory post store and its five operations
(list, create, update, delete, search).  A post is a JSON object; beyond
the `id`, `title` and `content` keys a record may carry extra pass-through
fields, modelled as an association list of opaque string values.  Request
bodies are modelled the same way (`Body`), with `none` for an absent key.
Each HTTP handler is embedded as a pure function from the current
collection and the decoded request to the new collection together with the
response payload and status code.
-/

namespace Blog

/-- A stored record: `id`, `title`, `content` plus any extra pass-through
fields kept verbatim from the create body (Python dicts are open). -/
structure Post where
  id : Nat
  title : String
  content : String
  extra : List (String × String)
deriving DecidableEq, Repr

/-- The JSON value part of a response, before serialization. -/
inductive Payload where
  | posts : List Post → Payload
  | post : Post → Payload
  | message : String → Payload
  | error : String → Payload
deriving DecidableEq, Repr

/-- A decoded JSON object request body: the keys the code reads (`title`,
`content`), a possibly supplied `id`, and all remaining fields. -/
structure Body where
  title : Option String
  content : Option String
  id : Option Nat
  extra : List (String × String)
deriving DecidableEq, Repr

/-- Python truthiness of `d.get(key)` for a string-valued key:
`None` and `""` are falsy. -/
def truthy : Option String → Bool
  | none => false
  | some s => !(s == "")

/-- Python truthiness of the decoded body dict: `None` (absent/unparseable)
is handled by `Option`; an empty dict `{}` is also falsy. -/
def bodyFalsy (b : Body) : Bool :=
  b.title.isNone && b.content.isNone && b.id.isNone && b.extra.isEmpty

/-! ## Strings: lexicographic order and substring containment

Python compares strings lexicographically by code point and tests
containment with `in`; both are embedded on the underlying `Char` lists. -/

/-- Python `s.lower()`: lowercase each character (`Char.toLower`, the
basic-latin lowering, matches Python on the ASCII data of this app). -/
def strLower (s : String) : String := ⟨s.data.map Char.toLower⟩

/-- Lexicographic `<=` on code-point lists (Python string comparison). -/
def listLe : List Char → List Char → Bool
  | [], _ => true
  | _ :: _, [] => false
  | a :: as, b :: bs =>
    if a.toNat < b.toNat then true
    else if b.toNat < a.toNat then false
    else listLe as bs

/-- Lexicographic `<=` on strings. -/
def strLe (a b : String) : Bool := listLe a.data b.data

/-- `lpre n h`: `n` is a leading segment of `h`. -/
def lpre : List Char → List Char → Bool
  | [], _ => true
  | _ :: _, [] => false
  | a :: as, b :: bs => a == b && lpre as bs

/-- `lsub n h`: `n` occurs contiguously inside `h` (Python `n in h`). -/
def lsub (n : List Char) : List Char → Bool
  | [] => lpre n []
  | b :: bs => lpre n (b :: bs) || lsub n bs

/-- Python `needle in hay` for strings. -/
def strContains (hay needle : String) : Bool := lsub needle.data hay.data

/-! ## Sorting (`sort_posts`)

`sorted(posts, key=lambda post: post[sort_field].lower(), reverse=reverse)`:
a stable sort by the lowercased field.  With `reverse=True` Python sorts by
the flipped comparator while records with equal keys keep their original
relative order (documented CPython behavior).  `sortBy` is a stable
insertion sort: it inserts each element before the first strictly earlier
element of the sorted tail, so equal keys keep their original order. -/

/-- Stable insertion of `a` into `l`: `a` goes before the first element `b`
with `le a b`. -/
def insertBy (le : α → α → Bool) (a : α) : List α → List α
  | [] => [a]
  | b :: bs => if le a b then a :: b :: bs else b :: insertBy le a bs

/-- Stable sort with respect to the boolean comparator `le`. -/
def sortBy (le : α → α → Bool) : List α → List α
  | [] => []
  | a :: as => insertBy le a (sortBy le as)

/-- `post[sort_field].lower()`.  `handle_posts` only calls `sort_posts`
with `sort_field` in `{"title", "content"}`; any other key would raise in
Python and is mapped to the `content` branch here, unreachable under the
guard. -/
def postKey (p : Post) (sort_field : String) : String :=
  if sort_field == "title" then strLower p.title else strLower p.content

/-- `sort_posts(posts, sort_field, direction)`. -/
def sort_posts (posts : List Post) (sort_field direction : String) : List Post :=
  let reverse := direction == "desc"
  if reverse then
    sortBy (fun a b => strLe (postKey b sort_field) (postKey a sort_field)) posts
  else
    sortBy (fun a b => strLe (postKey a sort_field) (postKey b sort_field)) posts

/-! ## The handlers -/

/-- `max(post['id'] for post in POSTS) + 1` when the collection is
non-empty, else `1` (Python `max` folds from the first element). -/
def next_id (posts : List Post) : Nat :=
  match posts with
  | [] => 1
  | p :: ps => ps.foldl (fun m q => max m q.id) p.id + 1

/-- POST `/api/posts` (`handle_posts`, write branch): validate `title`
then `content`, assign the fresh id, append, answer `"Created"`/201. -/
def create (posts : List Post) (body : Body) : List Post × Payload × Nat :=
  let nid := next_id posts
  if !(truthy body.title) then (posts, .error "Missing Title", 400)
  else if !(truthy body.content) then (posts, .error "Missing Content", 400)
  else
    let p : Post := ⟨nid, body.title.getD "", body.content.getD "", body.extra⟩
    (posts ++ [p], .message "Created", 201)

/-- GET `/api/posts` (`handle_posts`, read branch): `sortArg` is
`request.args.get('sort')`, `dirArg` is `request.args.get('direction')`
(defaulted to `"asc"` and lowercased).  An empty `sort` value is falsy in
Python, so it skips both the field validation and the sorting. -/
def getPosts (posts : List Post) (sortArg dirArg : Option String) : Payload × Nat :=
  let sort_field := sortArg.getD ""
  let direction := strLower (dirArg.getD "asc")
  if truthy sortArg && !(sort_field == "title" || sort_field == "content") then
    (.error "Invalid sort field. Allowed values are 'title' or 'content'.", 400)
  else if !(direction == "asc" || direction == "desc") then
    (.error "Invalid sort direction. Allowed values are 'asc' or 'desc'.", 400)
  else if truthy sortArg then
    (.posts (sort_posts posts sort_field direction), 200)
  else
    (.posts posts, 200)

/-- DELETE `/api/posts/<id>` (`delete`): linear scan for the first record
with the given id; remove it (Python `POSTS.remove(post)` removes the
first element equal to the found record, which is that first match since
any earlier equal dict would share its id) or answer 404. -/
def delete (posts : List Post) (i : Nat) : List Post × Payload × Nat :=
  match posts with
  | [] =>
    ([], .error ("Post with id " ++ toString i ++ " was not found."), 404)
  | p :: ps =>
    if p.id = i then
      (ps, .message ("Post with id " ++ toString i ++ " has been deleted successfully."), 200)
    else
      let r := delete ps i
      (p :: r.1, r.2.1, r.2.2)

/-- The in-place field mutations of `update` on the found record: a truthy
(present, non-empty) `title`/`content` in the body overwrites the stored
field; everything else on the record is untouched. -/
def applyBody (b : Body) (p : Post) : Post :=
  let p1 := if truthy b.title then { p with title := b.title.getD "" } else p
  if truthy b.content then { p1 with content := b.content.getD "" } else p1

/-- The `for post in POSTS` loop of `update`: first record with the given
id is mutated and returned with 200; no match answers 404. -/
def updateFind (b : Body) (i : Nat) : List Post → List Post × Payload × Nat
  | [] => ([], .error ("No post found with id " ++ toString i ++ "."), 404)
  | p :: ps =>
    if p.id = i then
      (applyBody b p :: ps, .post (applyBody b p), 200)
    else
      let r := updateFind b i ps
      (p :: r.1, r.2.1, r.2.2)

/-- PUT `/api/posts/<id>` (`update`): a missing/unparseable body (`none`)
or a falsy decoded body (`{}`) answers 400 before any lookup. -/
def update (posts : List Post) (i : Nat) (body : Option Body) :
    List Post × Payload × Nat :=
  match body with
  | none => (posts, .error "Invalid or missing JSON data.", 400)
  | some b =>
    if bodyFalsy b then (posts, .error "Invalid or missing JSON data.", 400)
    else updateFind b i posts

/-- GET `/api/posts/search` (`search`): both query params default to `""`
and are lowercased; a record is kept when the (non-empty) title query
occurs in its lowercased title or the (non-empty) content query occurs in
its lowercased content.  Always status 200. -/
def search (posts : List Post) (titleArg contentArg : Option String) :
    List Post × Nat :=
  let tq := strLower (titleArg.getD "")
  let cq := strLower (contentArg.getD "")
  (posts.filter (fun p =>
      (!(tq == "") && strContains (strLower p.title) tq) ||
      (!(cq == "") && strContains (strLower p.content) cq)), 200)

/-! ## Seed collection and operation sequences -/

/-- The seed `POSTS` list the process starts with. -/
def seedPosts : List Post := [
  ⟨1, "First post", "This is the first post.", []⟩,
  ⟨2, "Second post", "This is the second post.", []⟩,
  ⟨3, "Exploring Python", "Diving into the basics of Python and its versatility.", []⟩,
  ⟨4, "Learning Flask", "A beginner's guide to building web apps with Flask.", []⟩,
  ⟨5, "Understanding REST APIs", "Explaining the core principles behind RESTful APIs.", []⟩,
  ⟨6, "Working with JSON", "How to use JSON for data exchange between server and client.", []⟩,
  ⟨7, "Frontend vs Backend", "Discussing the differences between frontend and backend development.", []⟩,
  ⟨8, "Version Control 101", "An introduction to Git and why version control matters.", []⟩,
  ⟨9, "Debugging Tips", "Useful strategies to debug your code effectively.", []⟩,
  ⟨10, "Deploying Applications", "Steps to deploy your application in a production environment.", []⟩,
  ⟨11, "Intro to HTML", "Learn the basics of HTML for creating web pages.", []⟩,
  ⟨12, "CSS Styling", "A brief guide to styling web pages using CSS.", []⟩,
  ⟨13, "JavaScript Essentials", "Key concepts in JavaScript for dynamic web content.", []⟩,
  ⟨14, "Building Interactive UIs", "Techniques for making user interfaces engaging.", []⟩,
  ⟨15, "Responsive Design", "How to design web pages that look great on any device.", []⟩,
  ⟨16, "APIs in Action", "Examples of how APIs drive modern web applications.", []⟩,
  ⟨17, "Data Structures", "Understanding the fundamentals of data structures in programming.", []⟩,
  ⟨18, "Algorithm Basics", "An overview of common algorithms used in software development.", []⟩,
  ⟨19, "Coding Best Practices", "Tips for writing clean and maintainable code.", []⟩,
  ⟨20, "Introduction to Testing", "Why testing is crucial and how to get started with it.", []⟩,
  ⟨21, "Debugging Techniques", "Advanced techniques to troubleshoot and fix code issues.", []⟩,
  ⟨22, "Learning by Doing", "The importance of practical experience in mastering coding.", []⟩]

/-- A mutating operation on the collection. -/
inductive Op where
  | create (b : Body)
  | del (i : Nat)
deriving DecidableEq, Repr

/-- The state transition of one mutating request. -/
def applyOp (posts : List Post) : Op → List Post
  | .create b => (create posts b).1
  | .del i => (delete posts i).1

/-- The collection after a sequence of create/delete requests served from
the seed state. -/
def runOps (ops : List Op) : List Post := ops.foldl applyOp seedPosts

/-! ## Helper lemmas: the lexicographic comparator -/

theorem charToNat_inj {a b : Char} (h : a.toNat = b.toNat) : a = b := by
  rw [← Char.ofNat_toNat a, h, Char.ofNat_toNat]

theorem listLe_total (a b : List Char) : listLe a b = true ∨ listLe b a = true := by
  induction a generalizing b with
  | nil => left; rfl
  | cons x xs ih =>
    cases b with
    | nil => right; rfl
    | cons y ys =>
      by_cases h1 : x.toNat < y.toNat
      · left; simp [listLe, h1]
      · by_cases h2 : y.toNat < x.toNat
        · right; simp [listLe, h2]
        · rcases ih ys with h | h
          · left; simp [listLe, h1, h2, h]
          · right; simp [listLe, h1, h2, h]

theorem listLe_trans {a b c : List Char} (h1 : listLe a b = true)
    (h2 : listLe b c = true) : listLe a c = true := by
  induction a generalizing b c with
  | nil => rfl
  | cons x xs ih =>
    cases b with
    | nil => simp [listLe] at h1
    | cons y ys =>
      cases c with
      | nil => simp [listLe] at h2
      | cons z zs =>
        simp only [listLe] at h1 h2 ⊢
        by_cases hxy : x.toNat < y.toNat <;> by_cases hyz : y.toNat < z.toNat
        · have hxz : x.toNat < z.toNat := by omega
          simp [hxz]
        · by_cases hzy : z.toNat < y.toNat
          · simp [hyz, hzy] at h2
          · have hxz : x.toNat < z.toNat := by omega
            simp [hxz]
        · by_cases hyx : y.toNat < x.toNat
          · simp [hxy, hyx] at h1
          · have hxz : x.toNat < z.toNat := by omega
            simp [hxz]
        · by_cases hyx : y.toNat < x.toNat
          · simp [hxy, hyx] at h1
          · by_cases hzy : z.toNat < y.toNat
            · simp [hyz, hzy] at h2
            · have hxz : ¬ x.toNat < z.toNat := by omega
              have hzx : ¬ z.toNat < x.toNat := by omega
              simp only [hxy, hyx, if_false] at h1
              simp only [hyz, hzy, if_false] at h2
              simp only [hxz, hzx, if_false]
              exact ih h1 h2

theorem listLe_antisymm {a b : List Char} (h1 : listLe a b = true)
    (h2 : listLe b a = true) : a = b := by
  induction a generalizing b with
  | nil =>
    cases b with
    | nil => rfl
    | cons y ys => simp [listLe] at h2
  | cons x xs ih =>
    cases b with
    | nil => simp [listLe] at h1
    | cons y ys =>
      simp only [listLe] at h1 h2
      by_cases hxy : x.toNat < y.toNat
      · have hyx : ¬ y.toNat < x.toNat := by omega
        simp [hxy, hyx] at h2
      · by_cases hyx : y.toNat < x.toNat
        · simp [hxy, hyx] at h1
        · have hx : x = y := charToNat_inj (by omega)
          simp only [hxy, hyx, if_false] at h1 h2
          rw [hx, ih h1 h2]

theorem strLe_total (a b : String) : strLe a b = true ∨ strLe b a = true :=
  listLe_total a.data b.data

theorem strLe_trans {a b c : String} (h1 : strLe a b = true)
    (h2 : strLe b c = true) : strLe a c = true :=
  listLe_trans h1 h2

theorem strLe_antisymm {a b : String} (h1 : strLe a b = true)
    (h2 : strLe b a = true) : a = b := by
  cases a; cases b
  exact congrArg String.mk (listLe_antisymm h1 h2)

/-! ## Helper lemmas: stable insertion sort -/

theorem insertBy_perm (le : α → α → Bool) (a : α) (l : List α) :
    (insertBy le a l).Perm (a :: l) := by
  induction l with
  | nil => exact List.Perm.refl _
  | cons b bs ih =>
    simp only [insertBy]
    by_cases h : le a b = true
    · rw [if_pos h]
    · rw [if_neg h]
      exact (ih.cons b).trans (List.Perm.swap a b bs)

theorem sortBy_perm (le : α → α → Bool) (l : List α) : (sortBy le l).Perm l := by
  induction l with
  | nil => exact List.Perm.refl _
  | cons a as ih => exact (insertBy_perm le a (sortBy le as)).trans (ih.cons a)

theorem pairwise_insertBy {le : α → α → Bool}
    (htot : ∀ a b, le a b = true ∨ le b a = true)
    (htr : ∀ {a b c}, le a b = true → le b c = true → le a c = true)
    (a : α) {l : List α} (h : l.Pairwise (fun x y => le x y = true)) :
    (insertBy le a l).Pairwise (fun x y => le x y = true) := by
  induction l with
  | nil => simp [insertBy]
  | cons b bs ih =>
    rcases List.pairwise_cons.mp h with ⟨hb, hbs⟩
    simp only [insertBy]
    by_cases hab : le a b = true
    · rw [if_pos hab]
      refine List.pairwise_cons.mpr ⟨?_, h⟩
      intro x hx
      rcases List.mem_cons.mp hx with rfl | hx'
      · exact hab
      · exact htr hab (hb x hx')
    · rw [if_neg hab]
      refine List.pairwise_cons.mpr ⟨?_, ih hbs⟩
      intro x hx
      rcases List.mem_cons.mp ((insertBy_perm le a bs).mem_iff.mp hx) with rfl | hx'
      · rcases htot x b with h' | h'
        · exact absurd h' hab
        · exact h'
      · exact hb x hx'

theorem pairwise_sortBy {le : α → α → Bool}
    (htot : ∀ a b, le a b = true ∨ le b a = true)
    (htr : ∀ {a b c}, le a b = true → le b c = true → le a c = true)
    (l : List α) : (sortBy le l).Pairwise (fun x y => le x y = true) := by
  induction l with
  | nil => exact List.Pairwise.nil
  | cons a as ih => exact pairwise_insertBy htot htr a ih

/-- Two sorted permutations of each other coincide when the order relation
is antisymmetric on the elements involved. -/
theorem sorted_perm_unique {r : α → α → Prop}
    (anti : ∀ a b, r a b → r b a → a = b) :
    ∀ {l1 l2 : List α}, l1.Perm l2 → l1.Pairwise r → l2.Pairwise r → l1 = l2 := by
  intro l1
  induction l1 with
  | nil =>
    intro l2 hp _ _
    exact (hp.symm.eq_nil).symm
  | cons a t1 ih =>
    intro l2 hp h1 h2
    have ha : a ∈ l2 := hp.mem_iff.mp (List.mem_cons_self a t1)
    cases l2 with
    | nil => cases ha
    | cons b t2 =>
      rcases List.pairwise_cons.mp h1 with ⟨h1a, h1t⟩
      rcases List.pairwise_cons.mp h2 with ⟨h2b, h2t⟩
      have hab : a = b := by
        rcases List.mem_cons.mp ha with h' | ha'
        · exact h'
        · have hb : b ∈ a :: t1 := hp.symm.mem_iff.mp (List.mem_cons_self b t2)
          rcases List.mem_cons.mp hb with h' | hb'
          · exact h'.symm
          · exact anti a b (h1a b hb') (h2b a ha')
      subst hab
      rw [ih hp.cons_inv h1t h2t]

/-! ## Helper lemmas: `next_id` -/

theorem foldl_max_le_init (l : List Post) (m : Nat) :
    m ≤ l.foldl (fun acc q => max acc q.id) m := by
  induction l generalizing m with
  | nil => exact Nat.le_refl m
  | cons p ps ih => exact Nat.le_trans (Nat.le_max_left m p.id) (ih (max m p.id))

theorem id_le_foldl_max (l : List Post) (m : Nat) :
    ∀ q ∈ l, q.id ≤ l.foldl (fun acc x => max acc x.id) m := by
  induction l generalizing m with
  | nil => intro q hq; cases hq
  | cons p ps ih =>
    intro q hq
    rcases List.mem_cons.mp hq with rfl | hq'
    · exact Nat.le_trans (Nat.le_max_right m q.id) (foldl_max_le_init ps (max m q.id))
    · exact ih (max m p.id) q hq'

theorem foldl_max_attained (l : List Post) (m : Nat) :
    l.foldl (fun acc x => max acc x.id) m = m ∨
      ∃ q ∈ l, l.foldl (fun acc x => max acc x.id) m = q.id := by
  induction l generalizing m with
  | nil => left; rfl
  | cons p ps ih =>
    rcases ih (max m p.id) with h | ⟨q, hq, h⟩
    · by_cases hm : p.id ≤ m
      · left
        exact h.trans (Nat.max_eq_left hm)
      · right
        exact ⟨p, List.mem_cons_self p ps,
          h.trans (Nat.max_eq_right (Nat.le_of_lt (Nat.lt_of_not_le hm)))⟩
    · right
      exact ⟨q, List.mem_cons_of_mem p hq, h⟩

/-- The fresh id strictly exceeds every id already in the collection. -/
theorem next_id_gt {posts : List Post} : ∀ p ∈ posts, p.id < next_id posts := by
  intro p hp
  cases posts with
  | nil => cases hp
  | cons q qs =>
    rcases List.mem_cons.mp hp with rfl | hp'
    · exact Nat.lt_succ_of_le (foldl_max_le_init qs p.id)
    · exact Nat.lt_succ_of_le (id_le_foldl_max qs q.id p hp')

/-- On a non-empty collection the fresh id is `max(ids) + 1`: the value
below it is an id that occurs. -/
theorem next_id_attained {posts : List Post} (h : posts ≠ []) :
    next_id posts - 1 ∈ posts.map Post.id := by
  cases posts with
  | nil => exact absurd rfl h
  | cons q qs =>
    show qs.foldl _ q.id + 1 - 1 ∈ _
    rw [Nat.add_sub_cancel]
    rcases foldl_max_attained qs q.id with h' | ⟨r, hr, h'⟩
    · rw [h']
      exact List.mem_map.mpr ⟨q, List.mem_cons_self q qs, rfl⟩
    · rw [h']
      exact List.mem_map.mpr ⟨r, List.mem_cons_of_mem q hr, rfl⟩

theorem next_id_not_mem (posts : List Post) :
    next_id posts ∉ posts.map Post.id := by
  intro h
  rcases List.mem_map.mp h with ⟨p, hp, hid⟩
  exact Nat.lt_irrefl _ (hid ▸ next_id_gt p hp)

/-! ## Helper lemmas: `delete` -/

theorem delete_not_found {posts : List Post} {i : Nat}
    (h : i ∉ posts.map Post.id) :
    delete posts i =
      (posts, .error ("Post with id " ++ toString i ++ " was not found."), 404) := by
  induction posts with
  | nil => rfl
  | cons p ps ih =>
    have hp : ¬ p.id = i := fun he => h (List.mem_map.mpr ⟨p, List.mem_cons_self p ps, he⟩)
    have hps : i ∉ ps.map Post.id := fun hm => h (by
      rcases List.mem_map.mp hm with ⟨q, hq, hqe⟩
      exact List.mem_map.mpr ⟨q, List.mem_cons_of_mem p hq, hqe⟩)
    simp only [delete, if_neg hp, ih hps]

theorem delete_found {pre suf : List Post} {p : Post} {i : Nat}
    (hp : p.id = i) (hpre : ∀ q ∈ pre, q.id ≠ i) :
    delete (pre ++ p :: suf) i =
      (pre ++ suf,
        .message ("Post with id " ++ toString i ++ " has been deleted successfully."),
        200) := by
  induction pre with
  | nil => simp [delete, hp]
  | cons q qs ih =>
    have hq : ¬ q.id = i := hpre q (List.mem_cons_self q qs)
    have hqs : ∀ r ∈ qs, r.id ≠ i := fun r hr => hpre r (List.mem_cons_of_mem q hr)
    simp only [List.cons_append, delete, List.append_eq, if_neg hq, ih hqs]

theorem delete_state_eraseP (posts : List Post) (i : Nat) :
    (delete posts i).1 = posts.eraseP (fun p => p.id == i) := by
  induction posts with
  | nil => rfl
  | cons p ps ih =>
    by_cases hp : p.id = i
    · simp [delete, hp, List.eraseP_cons, hp]
    · simp only [delete, if_neg hp, List.eraseP_cons]
      have : (p.id == i) = false := by simp [hp]
      simp [this, ih]

theorem delete_sublist (posts : List Post) (i : Nat) :
    List.Sublist (delete posts i).1 posts := by
  induction posts with
  | nil => exact List.Sublist.refl []
  | cons p ps ih =>
    by_cases hp : p.id = i
    · simp only [delete, if_pos hp]
      exact List.sublist_cons_self p ps
    · simp only [delete, if_neg hp]
      exact ih.cons₂ p

theorem delete_length {posts : List Post} {i : Nat}
    (h : i ∈ posts.map Post.id) :
    (delete posts i).1.length + 1 = posts.length := by
  induction posts with
  | nil => cases h
  | cons p ps ih =>
    by_cases hp : p.id = i
    · simp [delete, hp]
    · have hps : i ∈ ps.map Post.id := by
        rcases List.mem_map.mp h with ⟨q, hq, hqe⟩
        rcases List.mem_cons.mp hq with rfl | hq'
        · exact absurd hqe hp
        · exact List.mem_map.mpr ⟨q, hq', hqe⟩
      simp only [delete, if_neg hp, List.length_cons, ih hps]

theorem delete_id_not_mem {posts : List Post} {i : Nat}
    (h : (posts.map Post.id).Nodup) :
    i ∉ ((delete posts i).1).map Post.id := by
  induction posts with
  | nil => simp [delete]
  | cons p ps ih =>
    rcases List.pairwise_cons.mp h with ⟨hp1, hps⟩
    by_cases hp : p.id = i
    · simp only [delete, if_pos hp]
      intro hm
      rcases List.mem_map.mp hm with ⟨q, hq, hqe⟩
      exact hp1 q.id (List.mem_map.mpr ⟨q, hq, rfl⟩) (hp.trans hqe.symm)
    · simp only [delete, if_neg hp, List.map_cons]
      intro hm
      rcases List.mem_cons.mp hm with he | hm'
      · exact hp he.symm
      · exact ih hps hm'

/-! ## Helper lemmas: `update` -/

theorem applyBody_id (b : Body) (p : Post) : (applyBody b p).id = p.id := by
  by_cases h1 : truthy b.title = true <;> by_cases h2 : truthy b.content = true <;>
    simp [applyBody, h1, h2]

theorem applyBody_extra (b : Body) (p : Post) : (applyBody b p).extra = p.extra := by
  by_cases h1 : truthy b.title = true <;> by_cases h2 : truthy b.content = true <;>
    simp [applyBody, h1, h2]

theorem applyBody_title (b : Body) (p : Post) :
    (applyBody b p).title = if truthy b.title then b.title.getD "" else p.title := by
  by_cases h1 : truthy b.title = true <;> by_cases h2 : truthy b.content = true <;>
    simp [applyBody, h1, h2]

theorem applyBody_content (b : Body) (p : Post) :
    (applyBody b p).content = if truthy b.content then b.content.getD "" else p.content := by
  by_cases h1 : truthy b.title = true <;> by_cases h2 : truthy b.content = true <;>
    simp [applyBody, h1, h2]

theorem updateFind_not_found {posts : List Post} {i : Nat} (b : Body)
    (h : i ∉ posts.map Post.id) :
    updateFind b i posts =
      (posts, .error ("No post found with id " ++ toString i ++ "."), 404) := by
  induction posts with
  | nil => rfl
  | cons p ps ih =>
    have hp : ¬ p.id = i := fun he => h (List.mem_map.mpr ⟨p, List.mem_cons_self p ps, he⟩)
    have hps : i ∉ ps.map Post.id := fun hm => h (by
      rcases List.mem_map.mp hm with ⟨q, hq, hqe⟩
      exact List.mem_map.mpr ⟨q, List.mem_cons_of_mem p hq, hqe⟩)
    simp only [updateFind, if_neg hp, ih hps]

theorem updateFind_found {pre suf : List Post} {p : Post} {i : Nat} (b : Body)
    (hp : p.id = i) (hpre : ∀ q ∈ pre, q.id ≠ i) :
    updateFind b i (pre ++ p :: suf) =
      (pre ++ applyBody b p :: suf, .post (applyBody b p), 200) := by
  induction pre with
  | nil => simp [updateFind, hp]
  | cons q qs ih =>
    have hq : ¬ q.id = i := hpre q (List.mem_cons_self q qs)
    have hqs : ∀ r ∈ qs, r.id ≠ i := fun r hr => hpre r (List.mem_cons_of_mem q hr)
    simp only [List.cons_append, updateFind, List.append_eq, if_neg hq, ih hqs]

theorem updateFind_frame (b : Body) (i : Nat) (posts : List Post) :
    ∀ q ∈ (updateFind b i posts).1, ∃ p ∈ posts, q.id = p.id ∧ q.extra = p.extra := by
  induction posts with
  | nil => intro q hq; cases hq
  | cons p ps ih =>
    intro q hq
    by_cases hp : p.id = i
    · simp only [updateFind, if_pos hp] at hq
      rcases List.mem_cons.mp hq with rfl | hq'
      · exact ⟨p, List.mem_cons_self p ps, applyBody_id b p, applyBody_extra b p⟩
      · exact ⟨q, List.mem_cons_of_mem p hq', rfl, rfl⟩
    · simp only [updateFind, if_neg hp] at hq
      rcases List.mem_cons.mp hq with rfl | hq'
      · exact ⟨q, List.mem_cons_self q ps, rfl, rfl⟩
      · rcases ih q hq' with ⟨r, hr, h1, h2⟩
        exact ⟨r, List.mem_cons_of_mem p hr, h1, h2⟩

theorem delete_resp_found {posts : List Post} {i : Nat}
    (h : i ∈ posts.map Post.id) :
    (delete posts i).2 =
      (.message ("Post with id " ++ toString i ++ " has been deleted successfully."),
        200) := by
  induction posts with
  | nil => cases h
  | cons p ps ih =>
    by_cases hp : p.id = i
    · simp [delete, hp]
    · have hps : i ∈ ps.map Post.id := by
        rcases List.mem_map.mp h with ⟨q, hq, hqe⟩
        rcases List.mem_cons.mp hq with rfl | hq'
        · exact absurd hqe hp
        · exact List.mem_map.mpr ⟨q, hq', hqe⟩
      simp only [delete, if_neg hp]
      exact ih hps

/-! ## Helper lemmas: `search` -/

theorem strLower_eq_empty_iff (s : String) : strLower s = "" ↔ s = "" := by
  cases s with
  | mk l =>
    constructor
    · intro h
      have h2 : l.map Char.toLower = [] := congrArg String.data h
      rw [List.map_eq_nil_iff] at h2
      rw [h2]
    · intro h
      rw [h]
      rfl

/-! ## Helper lemmas: id uniqueness under mutation -/

theorem create_state {posts : List Post} {b : Body}
    (h1 : truthy b.title = true) (h2 : truthy b.content = true) :
    (create posts b).1 =
      posts ++ [⟨next_id posts, b.title.getD "", b.content.getD "", b.extra⟩] := by
  simp [create, h1, h2]

theorem create_state_invalid {posts : List Post} {b : Body}
    (h : ¬ (truthy b.title = true ∧ truthy b.content = true)) :
    (create posts b).1 = posts := by
  by_cases h1 : truthy b.title = true
  · have h2 : ¬ truthy b.content = true := fun h2 => h ⟨h1, h2⟩
    simp [create, h1, h2]
  · simp [create, h1]

theorem applyOp_nodup {posts : List Post} (h : (posts.map Post.id).Nodup) :
    ∀ op : Op, (((applyOp posts op).map Post.id)).Nodup := by
  intro op
  cases op with
  | create b =>
    show (((create posts b).1).map Post.id).Nodup
    by_cases hv : truthy b.title = true ∧ truthy b.content = true
    · rw [create_state hv.1 hv.2, List.map_append]
      refine ((List.perm_append_singleton _ _).nodup_iff).mpr ?_
      exact List.nodup_cons.mpr ⟨next_id_not_mem posts, h⟩
    · rw [create_state_invalid hv]
      exact h
  | del i =>
    exact List.Nodup.sublist ((delete_sublist posts i).map Post.id) h

end Blog

namespace Blog

/-! ## The claims -/

/-- C2: starting from the seed collection, every sequence of create and
delete operations leaves the ids of the live collection pairwise
distinct. -/
theorem C2_ids_nodup_after_any_ops (ops : List Op) :
    ((runOps ops).map Post.id).Nodup := by
  suffices h : ∀ (l : List Op) (posts : List Post), (posts.map Post.id).Nodup →
      ((l.foldl applyOp posts).map Post.id).Nodup by
    exact h ops seedPosts (by decide)
  intro l
  induction l with
  | nil => intro posts h; exact h
  | cons op rest ih =>
    intro posts h
    exact ih (applyOp posts op) (applyOp_nodup h op)

/-- C3: `next_id` is `1` on the empty collection and `max(ids) + 1` on a
non-empty one (the value below it occurs as an id and bounds all ids);
hence a valid create appends a record whose id is `next_id` and strictly
exceeds every id present before. -/
theorem C3_next_id_spec (posts : List Post) (b : Body) :
    next_id ([] : List Post) = 1 ∧
    (posts ≠ [] →
      next_id posts - 1 ∈ posts.map Post.id ∧
      ∀ p ∈ posts, p.id ≤ next_id posts - 1) ∧
    (∀ p ∈ posts, p.id < next_id posts) ∧
    (truthy b.title = true → truthy b.content = true →
      ∃ newp : Post, (create posts b).1 = posts ++ [newp] ∧
        newp.id = next_id posts ∧ ∀ p ∈ posts, p.id < newp.id) := by
  refine ⟨rfl, ?_, next_id_gt, ?_⟩
  · intro hne
    refine ⟨next_id_attained hne, fun p hp => ?_⟩
    have := next_id_gt p hp
    omega
  · intro h1 h2
    exact ⟨⟨next_id posts, b.title.getD "", b.content.getD "", b.extra⟩,
      create_state h1 h2, rfl, next_id_gt⟩

/-- Witness for C3 at a concrete collection and body. -/
theorem C3_witness :
    next_id ([] : List Post) = 1 ∧
    (next_id [⟨1, "a", "b", []⟩, ⟨5, "c", "d", []⟩] - 1 ∈
        ([⟨1, "a", "b", []⟩, ⟨5, "c", "d", []⟩] : List Post).map Post.id ∧
      ∀ p ∈ ([⟨1, "a", "b", []⟩, ⟨5, "c", "d", []⟩] : List Post),
        p.id ≤ next_id [⟨1, "a", "b", []⟩, ⟨5, "c", "d", []⟩] - 1) ∧
    (∃ newp : Post,
      (create [⟨1, "a", "b", []⟩, ⟨5, "c", "d", []⟩] ⟨some "t", some "c", none, []⟩).1 =
        [⟨1, "a", "b", []⟩, ⟨5, "c", "d", []⟩] ++ [newp] ∧
      newp.id = next_id [⟨1, "a", "b", []⟩, ⟨5, "c", "d", []⟩] ∧
      ∀ p ∈ ([⟨1, "a", "b", []⟩, ⟨5, "c", "d", []⟩] : List Post), p.id < newp.id) := by
  have h := C3_next_id_spec [⟨1, "a", "b", []⟩, ⟨5, "c", "d", []⟩]
    ⟨some "t", some "c", none, []⟩
  exact ⟨h.1, h.2.1 (by decide), h.2.2.2 (by decide) (by decide)⟩

/-- C1 counterexample: on two records whose lowercased titles tie
(`"A"` and `"a"`), the descending sort keeps them in their ascending
(insertion) order — stable sort with the flipped comparator — so it is not
the literal reversal of the ascending result. -/
theorem C1_desc_not_literal_reverse :
    sort_posts [⟨1, "A", "x", []⟩, ⟨2, "a", "y", []⟩] "title" "desc" ≠
      (sort_posts [⟨1, "A", "x", []⟩, ⟨2, "a", "y", []⟩] "title" "asc").reverse := by
  decide

/-- C1 (amended): for every collection state and sort field, when the
lowercased sort keys of the records are pairwise distinct,
`list(sort_field, "desc")` is exactly the reversal of
`list(sort_field, "asc")`; on tied keys the descending sort instead keeps
the ascending relative order. -/
theorem C1_desc_reverses_asc_of_distinct_keys (posts : List Post) (f : String)
    (hk : posts.Pairwise (fun a b => postKey a f ≠ postKey b f)) :
    sort_posts posts f "desc" = (sort_posts posts f "asc").reverse := by
  have hdesc : sort_posts posts f "desc" =
      sortBy (fun a b => strLe (postKey b f) (postKey a f)) posts := rfl
  have hasc : sort_posts posts f "asc" =
      sortBy (fun a b => strLe (postKey a f) (postKey b f)) posts := rfl
  rw [hdesc, hasc]
  have htotD : ∀ a b : Post, strLe (postKey b f) (postKey a f) = true ∨
      strLe (postKey a f) (postKey b f) = true :=
    fun a b => strLe_total (postKey b f) (postKey a f)
  have htrD : ∀ {a b c : Post}, strLe (postKey b f) (postKey a f) = true →
      strLe (postKey c f) (postKey b f) = true →
      strLe (postKey c f) (postKey a f) = true :=
    fun h1 h2 => strLe_trans h2 h1
  have htotA : ∀ a b : Post, strLe (postKey a f) (postKey b f) = true ∨
      strLe (postKey b f) (postKey a f) = true :=
    fun a b => strLe_total (postKey a f) (postKey b f)
  have htrA : ∀ {a b c : Post}, strLe (postKey a f) (postKey b f) = true →
      strLe (postKey b f) (postKey c f) = true →
      strLe (postKey a f) (postKey c f) = true :=
    fun h1 h2 => strLe_trans h1 h2
  have hD := pairwise_sortBy htotD (fun h1 h2 => htrD h1 h2) posts
  have hA := pairwise_sortBy htotA (fun h1 h2 => htrA h1 h2) posts
  have hsymm : ∀ {x y : Post},
      postKey x f ≠ postKey y f → postKey y f ≠ postKey x f :=
    fun h => h.symm
  have hDne := ((sortBy_perm
    (fun a b => strLe (postKey b f) (postKey a f)) posts).pairwise_iff hsymm).mpr hk
  have hAne := ((sortBy_perm
    (fun a b => strLe (postKey a f) (postKey b f)) posts).pairwise_iff hsymm).mpr hk
  apply sorted_perm_unique
    (r := fun a b : Post =>
      strLe (postKey b f) (postKey a f) = true ∧ postKey a f ≠ postKey b f)
  · intro a b hab hba
    exact absurd (strLe_antisymm hba.1 hab.1) hab.2
  · exact (sortBy_perm _ posts).trans
      ((sortBy_perm _ posts).symm.trans (List.reverse_perm _).symm)
  · exact hD.and hDne
  · refine List.pairwise_reverse.mpr ?_
    exact (hA.and hAne).imp (fun h => ⟨h.1, h.2.symm⟩)

/-- Witness for C1 at a concrete collection with pairwise distinct keys. -/
theorem C1_witness :
    ([⟨1, "b", "x", []⟩, ⟨2, "a", "y", []⟩] : List Post).Pairwise
        (fun a b => postKey a "title" ≠ postKey b "title") ∧
      sort_posts [⟨1, "b", "x", []⟩, ⟨2, "a", "y", []⟩] "title" "desc" =
        (sort_posts [⟨1, "b", "x", []⟩, ⟨2, "a", "y", []⟩] "title" "asc").reverse :=
  ⟨by decide, C1_desc_reverses_asc_of_distinct_keys _ _ (by decide)⟩

/-- C4 counterexample: a valid create answers only the payload
`{"message": "Created"}` with 201; the created record (here
`id 1, title "a", content "b"`) is not returned. -/
theorem C4_create_response_lacks_record :
    (create [] ⟨some "a", some "b", none, []⟩).2 = (.message "Created", 201) ∧
      (create [] ⟨some "a", some "b", none, []⟩).2.1 ≠
        .post ⟨1, "a", "b", []⟩ := by
  decide

/-- C4 (amended): a create with non-empty title and content assigns
`id = next_id`, appends the new record at the end of the collection
(existing records and their order untouched), and answers the
`"Created"` message with the 201 signal; the created record itself is not
part of the response. -/
theorem C4_create_appends_fresh_id (posts : List Post) (b : Body)
    (h1 : truthy b.title = true) (h2 : truthy b.content = true) :
    create posts b =
      (posts ++ [⟨next_id posts, b.title.getD "", b.content.getD "", b.extra⟩],
        .message "Created", 201) := by
  simp [create, h1, h2]

/-- Witness for C4: the spec scenario `create({title:"X", content:"Y"})`
on the seed collection yields the record with id 23 at the end. -/
theorem C4_witness :
    create seedPosts ⟨some "X", some "Y", none, []⟩ =
      (seedPosts ++ [⟨23, "X", "Y", []⟩], .message "Created", 201) :=
  (C4_create_appends_fresh_id seedPosts ⟨some "X", some "Y", none, []⟩
    (by decide) (by decide)).trans (by decide)

/-- C9: create validation is ordered — a missing or empty title fails
first with the error naming the title (whatever the content is), and only
with a non-empty title is the content checked; in both failure cases the
collection is unchanged, and each message names its field
(case-insensitively). -/
theorem C9_create_validation_order (posts : List Post) (b : Body) :
    (truthy b.title = false →
      create posts b = (posts, .error "Missing Title", 400)) ∧
    (truthy b.title = true → truthy b.content = false →
      create posts b = (posts, .error "Missing Content", 400)) ∧
    strContains (strLower "Missing Title") "title" = true ∧
    strContains (strLower "Missing Content") "content" = true := by
  refine ⟨?_, ?_, by decide, by decide⟩
  · intro h
    simp [create, h]
  · intro h1 h2
    simp [create, h1, h2]

/-- Witness for C9: an empty title is reported even though the content is
fine, and a non-empty title with a missing content reports the content. -/
theorem C9_witness :
    create [] ⟨some "", some "body", none, []⟩ =
        ([], .error "Missing Title", 400) ∧
      create [] ⟨some "t", none, none, []⟩ =
        ([], .error "Missing Content", 400) :=
  ⟨(C9_create_validation_order [] ⟨some "", some "body", none, []⟩).1 (by decide),
   (C9_create_validation_order [] ⟨some "t", none, none, []⟩).2.1
      (by decide) (by decide)⟩

/-- C6: deleting an id that occurs removes exactly the (first) record with
that id — the collection shrinks by one and equals the original with that
record erased — and answers 200 with a message referencing the id;
deleting an absent id answers `NotFound` (404) and leaves the collection
unchanged; with pairwise distinct ids, deleting the same id twice yields
success then `NotFound` with the collection unchanged by the second
call. -/
theorem C6_delete_spec (posts : List Post) (i : Nat) :
    (i ∉ posts.map Post.id →
      delete posts i =
        (posts, .error ("Post with id " ++ toString i ++ " was not found."), 404)) ∧
    (i ∈ posts.map Post.id →
      (delete posts i).2 =
          (.message ("Post with id " ++ toString i ++ " has been deleted successfully."),
            200) ∧
        (delete posts i).1.length + 1 = posts.length ∧
        (delete posts i).1 = posts.eraseP (fun p => p.id == i)) ∧
    ((posts.map Post.id).Nodup →
      (delete (delete posts i).1 i).2.2 = 404 ∧
        (delete (delete posts i).1 i).1 = (delete posts i).1) := by
  refine ⟨fun h => delete_not_found h,
    fun h => ⟨delete_resp_found h, delete_length h, delete_state_eraseP posts i⟩,
    fun hnd => ?_⟩
  have h4 := delete_not_found (@delete_id_not_mem posts i hnd)
  exact ⟨by rw [h4], by rw [h4]⟩

/-- Witness for C6: deleting id 1 from a singleton collection succeeds
with the confirmation message, and deleting it again answers 404. -/
theorem C6_witness :
    (delete [⟨1, "a", "b", []⟩] 1).2 =
        (.message ("Post with id " ++ toString (1 : Nat) ++
          " has been deleted successfully."), 200) ∧
      (delete (delete [⟨1, "a", "b", []⟩] 1).1 1).2.2 = 404 :=
  ⟨((C6_delete_spec [⟨1, "a", "b", []⟩] 1).2.1 (by decide)).1,
   ((C6_delete_spec [⟨1, "a", "b", []⟩] 1).2.2 (by decide)).1⟩

/-- C5 counterexample: the body `{}` is present and parseable, yet update
rejects it with `"Invalid or missing JSON data."`/400 (Python treats the
empty dict as falsy) instead of returning the unchanged record with
200. -/
theorem C5_empty_body_rejected :
    update [⟨7, "t", "c", []⟩] 7 (some ⟨none, none, none, []⟩) =
        ([⟨7, "t", "c", []⟩], .error "Invalid or missing JSON data.", 400) ∧
      (update [⟨7, "t", "c", []⟩] 7 (some ⟨none, none, none, []⟩)).2.2 ≠ 200 := by
  decide

/-- C5 (amended): for every update with a present, parseable and non-empty
body: an absent id answers `NotFound` (404) with the collection unchanged;
a present id mutates exactly the first record with that id — a truthy
(supplied, non-empty) title or content overwrites the stored field,
anything else is untouched, the id never changes (even when the body
supplies one) — and the full updated record is returned with 200. -/
theorem C5_update_spec (posts : List Post) (i : Nat) (b : Body)
    (hb : bodyFalsy b = false) :
    (i ∉ posts.map Post.id →
      update posts i (some b) =
        (posts, .error ("No post found with id " ++ toString i ++ "."), 404)) ∧
    (∀ pre p suf, posts = pre ++ p :: suf → p.id = i → (∀ q ∈ pre, q.id ≠ i) →
      update posts i (some b) =
        (pre ++ applyBody b p :: suf, .post (applyBody b p), 200)) ∧
    (∀ p : Post, (applyBody b p).id = p.id ∧
      (applyBody b p).title =
        (if truthy b.title then b.title.getD "" else p.title) ∧
      (applyBody b p).content =
        (if truthy b.content then b.content.getD "" else p.content)) := by
  have hbe : ¬ bodyFalsy b = true := by simp [hb]
  refine ⟨?_, ?_,
    fun p => ⟨applyBody_id b p, applyBody_title b p, applyBody_content b p⟩⟩
  · intro h
    simp only [update, if_neg hbe]
    exact updateFind_not_found b h
  · intro pre p suf hdec hp hpre
    simp only [update, if_neg hbe]
    rw [hdec]
    exact updateFind_found b hp hpre

/-- Witness for C5: `update(999, {title:"Z"})` on a singleton collection
answers `NotFound` leaving the collection unchanged, and `update(1, ...)`
on the same collection replaces the title only. -/
theorem C5_witness :
    update [⟨1, "t", "c", []⟩] 999 (some ⟨some "Z", none, none, []⟩) =
        ([⟨1, "t", "c", []⟩],
          .error ("No post found with id " ++ toString (999 : Nat) ++ "."), 404) ∧
      update [⟨1, "t", "c", []⟩] 1 (some ⟨some "Z", none, none, []⟩) =
        ([] ++ applyBody ⟨some "Z", none, none, []⟩ ⟨1, "t", "c", []⟩ :: [],
          .post (applyBody ⟨some "Z", none, none, []⟩ ⟨1, "t", "c", []⟩), 200) :=
  ⟨(C5_update_spec [⟨1, "t", "c", []⟩] 999 ⟨some "Z", none, none, []⟩
      (by decide)).1 (by decide),
   (C5_update_spec [⟨1, "t", "c", []⟩] 1 ⟨some "Z", none, none, []⟩
      (by decide)).2.1 [] ⟨1, "t", "c", []⟩ [] rfl (by decide)
      (fun q hq => absurd hq (List.not_mem_nil q))⟩

/-- C10: an update can only change the `title` and `content` fields of
records: every record in the collection after any update call has the id
and the extra pass-through fields of a record of the collection before it —
extra fields in the request body are never copied onto the stored record,
and stored extra fields survive unchanged. -/
theorem C10_update_frame (posts : List Post) (i : Nat) (body : Option Body) :
    ∀ q ∈ (update posts i body).1,
      ∃ p ∈ posts, q.id = p.id ∧ q.extra = p.extra := by
  cases body with
  | none =>
    intro q hq
    exact ⟨q, hq, rfl, rfl⟩
  | some b =>
    by_cases hb : bodyFalsy b = true
    · intro q hq
      simp only [update, if_pos hb] at hq
      exact ⟨q, hq, rfl, rfl⟩
    · intro q hq
      simp only [update, if_neg hb] at hq
      exact updateFind_frame b i posts q hq

/-- Witness for C10: the updated record keeps its id and its stored extra
field even though the body supplies a new id and another extra field. -/
theorem C10_witness :
    ∃ p ∈ ([⟨1, "t", "c", [("author", "bob")]⟩] : List Post),
      (⟨1, "Z", "c", [("author", "bob")]⟩ : Post).id = p.id ∧
        (⟨1, "Z", "c", [("author", "bob")]⟩ : Post).extra = p.extra :=
  C10_update_frame [⟨1, "t", "c", [("author", "bob")]⟩] 1
    (some ⟨some "Z", none, some 42, [("hack", "x")]⟩)
    ⟨1, "Z", "c", [("author", "bob")]⟩ (by decide)

/-- C7: search never fails (status 200), keeps the original collection
order (the result is a sublist of the collection), and returns exactly the
union of the records whose lowercased title contains the non-empty
lowercased title query and those whose lowercased content contains the
non-empty lowercased content query; with both queries empty (absent or
`""`) the result is empty whatever the collection holds. -/
theorem C7_search_spec (posts : List Post) (t c : Option String) :
    (search posts t c).2 = 200 ∧
    List.Sublist (search posts t c).1 posts ∧
    (∀ p : Post, p ∈ (search posts t c).1 ↔ p ∈ posts ∧
      ((t.getD "" ≠ "" ∧
          strContains (strLower p.title) (strLower (t.getD "")) = true) ∨
        (c.getD "" ≠ "" ∧
          strContains (strLower p.content) (strLower (c.getD "")) = true))) ∧
    (t.getD "" = "" → c.getD "" = "" → (search posts t c).1 = []) := by
  refine ⟨rfl, List.filter_sublist posts, ?_, ?_⟩
  · intro p
    simp only [search, List.mem_filter, Bool.or_eq_true, Bool.and_eq_true,
      Bool.not_eq_true', beq_eq_false_iff_ne, ne_eq, strLower_eq_empty_iff]
  · intro ht hc
    have he : strLower "" = "" := (strLower_eq_empty_iff "").mpr rfl
    simp only [search]
    rw [List.filter_eq_nil_iff]
    intro a _
    simp [ht, hc, he]

/-- Witness for C7: both queries empty on a non-empty collection gives the
empty result. -/
theorem C7_witness :
    (search [⟨1, "t", "c", []⟩] (some "") none).1 = [] :=
  (C7_search_spec [⟨1, "t", "c", []⟩] (some "") none).2.2.2 (by decide) (by decide)

/-- C8 counterexample: a present but empty `sort` value is falsy in
Python, so the code answers the unsorted collection with 200 instead of
the claimed `InvalidArgument`; and the direction is lowercased before
validation, so `"DESC"` — not in `{"asc","desc"}` — is accepted with 200
instead of rejected. -/
theorem C8_empty_sort_and_upper_direction_accepted :
    getPosts [] (some "") none = (.posts [], 200) ∧
      (getPosts [] (some "") none).2 ≠ 400 ∧
      getPosts [] (some "title") (some "DESC") = (.posts [], 200) ∧
      (getPosts [] (some "title") (some "DESC")).2 ≠ 400 := by
  decide

/-- C8 (amended): a present, non-empty `sort` outside
`{"title","content"}` fails with the "invalid sort field" error (whatever
the direction is, showing the field is validated first); with `sort`
absent, empty, or allowed, a direction whose lowercasing (after defaulting
to `"asc"`) is outside `{"asc","desc"}` fails with the "invalid sort
direction" error; with `sort` absent or empty and a valid direction the
collection is returned in insertion order, unsorted. -/
theorem C8_list_validation (posts : List Post) (sortArg dirArg : Option String) :
    (∀ s, sortArg = some s → s ≠ "" → s ≠ "title" → s ≠ "content" →
      getPosts posts sortArg dirArg =
        (.error "Invalid sort field. Allowed values are 'title' or 'content'.", 400)) ∧
    ((sortArg = none ∨ sortArg = some "" ∨ sortArg = some "title" ∨
        sortArg = some "content") →
      strLower (dirArg.getD "asc") ≠ "asc" →
      strLower (dirArg.getD "asc") ≠ "desc" →
      getPosts posts sortArg dirArg =
        (.error "Invalid sort direction. Allowed values are 'asc' or 'desc'.", 400)) ∧
    ((sortArg = none ∨ sortArg = some "") →
      (strLower (dirArg.getD "asc") = "asc" ∨ strLower (dirArg.getD "asc") = "desc") →
      getPosts posts sortArg dirArg = (.posts posts, 200)) := by
  refine ⟨?_, ?_, ?_⟩
  · intro s hs h1 h2 h3
    subst hs
    have e1 : (s == "") = false := by simp [h1]
    have e2 : (s == "title") = false := by simp [h2]
    have e3 : (s == "content") = false := by simp [h3]
    simp [getPosts, truthy, e1, e2, e3]
  · intro hmem hd1 hd2
    have d1 : (strLower (dirArg.getD "asc") == "asc") = false := by simp [hd1]
    have d2 : (strLower (dirArg.getD "asc") == "desc") = false := by simp [hd2]
    rcases hmem with rfl | rfl | rfl | rfl <;> simp [getPosts, truthy, d1, d2]
  · intro hmem hd
    have d : (strLower (dirArg.getD "asc") == "asc" ||
        strLower (dirArg.getD "asc") == "desc") = true := by
      rcases hd with h | h <;> simp [h]
    rcases hmem with rfl | rfl <;> simp [getPosts, truthy, d]

/-- Witness for C8: the spec scenario `list(sort="bogus")` fails with the
invalid-sort-field error and status 400. -/
theorem C8_witness :
    getPosts [] (some "bogus") none =
      (.error "Invalid sort field. Allowed values are 'title' or 'content'.", 400) :=
  (C8_list_validation [] (some "bogus") none).1 "bogus" rfl
    (by decide) (by decide) (by decide)

end Blog
